import Mathlib

/-!
Verification of the financial business-case engine of
`automation_business_case_calculator`.

The Python source is embedded shallowly over `ℚ`:

* `compute_npv` — `utils.py`, `compute_npv`
* `compute_payback_period`, `compute_irr` — `pages/01_Business_Case_Calculator.py`
* technical/CSAT debt model — `pages/01_Business_Case_Calculator.py` (inline in `main`)
* `SENTIMENT_PRESETS`, `apply_distribution` — `csat_utils.py`
* `val` / `add_row` of the scenario comparator — `pages/02_Business_Case_Comparison.py`

Python floats are modelled as rationals, `None` as `Option.none`,
and Python's banker's rounding (`round`) as `pyRound`.
-/

namespace BizCase

/-- Embedding of `utils.compute_npv`'s accumulation loop:
`npv = 0.0; for t, cf in enumerate(cash_flows): npv += cf / ((1 + discount_rate) ** t)`. -/
def npvGo (discount_rate : ℚ) : ℕ → ℚ → List ℚ → ℚ
  | _, npv, [] => npv
  | t, npv, cf :: rest => npvGo discount_rate (t + 1) (npv + cf / (1 + discount_rate) ^ t) rest

/-- Embedding of `utils.compute_npv`. -/
def compute_npv (discount_rate : ℚ) (cash_flows : List ℚ) : ℚ :=
  npvGo discount_rate 0 0 cash_flows

/-- Embedding of the loop body of `compute_payback_period`
(`pages/01_Business_Case_Calculator.py`, lines 60-72): `t` is the loop index and
`cumulative` the running total before adding the current year's cash flow. -/
def paybackGo : ℕ → ℚ → List ℚ → Option ℚ
  | _, _, [] => none
  | t, cumulative, cf :: rest =>
    let c := cumulative + cf
    if 0 ≤ c then
      if t = 0 then some 0
      else if cf = 0 then some (t : ℚ)
      else some ((t : ℚ) - 1 + (0 - cumulative) / cf)
    else paybackGo (t + 1) c rest

/-- Embedding of `compute_payback_period`. -/
def compute_payback_period (cash_flows : List ℚ) : Option ℚ :=
  paybackGo 0 0 cash_flows

/-- Embedding of the `for _ in range(100)` bisection loop of `compute_irr`
(`pages/01_Business_Case_Calculator.py`, lines 105-117).  The fuel counts the
remaining iterations; at fuel 0 the loop exhausts and the midpoint of the final
bracket is returned.  The state mirrors the source's
`guess_low, guess_high, npv_low, npv_high` variables. -/
def irrGo (cash_flows : List ℚ) : ℕ → ℚ → ℚ → ℚ → ℚ → ℚ
  | 0, guess_low, guess_high, _, _ => (guess_low + guess_high) / 2
  | fuel + 1, guess_low, guess_high, npv_low, npv_high =>
    let mid := (guess_low + guess_high) / 2
    let npv_mid := compute_npv mid cash_flows
    if |npv_mid| < 1 / 1000000 then mid
    else if npv_low * npv_mid < 0 then irrGo cash_flows fuel guess_low mid npv_low npv_mid
    else irrGo cash_flows fuel mid guess_high npv_mid npv_high

/-- Embedding of `compute_irr` (the Python defaults are
`guess_low = -0.9`, `guess_high = 10.0`; here they are passed explicitly). -/
def compute_irr (cash_flows : List ℚ) (guess_low guess_high : ℚ) : Option ℚ :=
  let npv_low := compute_npv guess_low cash_flows
  let npv_high := compute_npv guess_high cash_flows
  if npv_low * npv_high > 0 then none
  else some (irrGo cash_flows 100 guess_low guess_high npv_low npv_high)

/-- Bracket trace of the bisection loop: it follows exactly the branch
structure of `irrGo` (same tolerance test, same `npv_low * npv_mid < 0` test,
same state updates) but returns the bracket the loop holds when the fuel is
exhausted, and `none` when the tolerance exit fires first.  It instruments the
loop so that "the midpoint of the final bracket after the 100th iteration" can
be stated about the bracket the run actually reaches. -/
def irrGoBracket (cash_flows : List ℚ) : ℕ → ℚ → ℚ → ℚ → ℚ → Option (ℚ × ℚ)
  | 0, guess_low, guess_high, _, _ => some (guess_low, guess_high)
  | fuel + 1, guess_low, guess_high, npv_low, npv_high =>
    let mid := (guess_low + guess_high) / 2
    let npv_mid := compute_npv mid cash_flows
    if |npv_mid| < 1 / 1000000 then none
    else if npv_low * npv_mid < 0 then
      irrGoBracket cash_flows fuel guess_low mid npv_low npv_mid
    else irrGoBracket cash_flows fuel mid guess_high npv_mid npv_high

/-- Embedding of the technical/CSAT debt impact computation
(`pages/01_Business_Case_Calculator.py`, line 1649):
`impact_pct = max(0.0, 1.0 - (automation_coverage_pct / 100.0))`. -/
def tech_debt_impact_pct (automation_coverage_pct : ℚ) : ℚ :=
  max 0 (1 - automation_coverage_pct / 100)

/-- Embedding of line 1652: `tech_debt_annual = base_tech_debt_annual * impact_pct`. -/
def tech_debt_annual (base_annual coverage_pct : ℚ) : ℚ :=
  base_annual * tech_debt_impact_pct coverage_pct

/-- Residual percentage actually applied: the source initialises
`residual_pct = 100.0` and only overwrites it from the remediation input when
remediation is enabled (lines 1667-1682).  `none` models remediation disabled. -/
def residual_pct_effective : Option ℚ → ℚ
  | none => 100
  | some r => r

/-- Embedding of line 1685:
`tech_debt_annual_after = tech_debt_annual * (residual_pct / 100.0)`. -/
def tech_debt_annual_after (base_annual coverage_pct : ℚ) (remediation_residual : Option ℚ) : ℚ :=
  tech_debt_annual base_annual coverage_pct * (residual_pct_effective remediation_residual / 100)

/-- Embedding of `csat_utils.SentimentDist` (the three proportions). -/
structure SentimentDist where
  happy : ℚ
  neutral : ℚ
  sad : ℚ

/-- Embedding of `csat_utils.SENTIMENT_PRESETS` as a lookup function
(`dict.get` on the three preset keys; the decimal literals `0.60`, `0.30`,
`0.10` and `1/3` become exact rationals). -/
def SENTIMENT_PRESETS (label : String) : Option SentimentDist :=
  if label = "Customers mostly happy" then some ⟨6/10, 3/10, 1/10⟩
  else if label = "Customer ambivalent" then some ⟨1/3, 1/3, 1/3⟩
  else if label = "Customers mostly unhappy" then some ⟨1/10, 3/10, 6/10⟩
  else none

/-- Python's built-in `round` (banker's rounding, round half to even) on an
exact rational value. -/
def pyRound (q : ℚ) : ℤ :=
  let f := ⌊q⌋
  let frac := q - (f : ℚ)
  if frac < 1/2 then f
  else if 1/2 < frac then f + 1
  else if f % 2 = 0 then f else f + 1

/-- Embedding of `csat_utils.apply_distribution`.  The source returns `(0,0,0)`
when the label is not a preset key (`dist` is `None`, so `not dist` is true; a
`SentimentDist` instance itself is always truthy) or when `expected_total <= 0`;
otherwise it rounds the happy and neutral counts and gives the remainder to sad,
clamping a negative remainder to zero with neutral absorbing the difference. -/
def apply_distribution (expected_total : ℤ) (sentiment_label : String) : ℤ × ℤ × ℤ :=
  match SENTIMENT_PRESETS sentiment_label with
  | none => (0, 0, 0)
  | some dist =>
    if expected_total ≤ 0 then (0, 0, 0)
    else
      let new_h := pyRound ((expected_total : ℚ) * dist.happy)
      let new_n := pyRound ((expected_total : ℚ) * dist.neutral)
      let new_s := expected_total - new_h - new_n
      if new_s < 0 then (new_h, max 0 (expected_total - new_h), 0)
      else (new_h, new_n, new_s)

/-- Property bundle for a returned (happy, neutral, sad) triple: all three
components are non-negative and they sum to the expected total. -/
def tripleOK (expected_total : ℤ) (x : ℤ × ℤ × ℤ) : Prop :=
  0 ≤ x.1 ∧ 0 ≤ x.2.1 ∧ 0 ≤ x.2.2 ∧ x.1 + x.2.1 + x.2.2 = expected_total

/-- A JSON scalar as far as the comparator's `val` helper can observe it:
either a value on which Python's `float(...)` succeeds (a number, modelled
exactly), or one on which `float(...)` raises (JSON `null`, a non-numeric
string, a list, ...). -/
inductive JVal
  | num (q : ℚ)
  | nonnumeric

/-- Python's `float(v)` attempt inside `val`: `some` when the conversion
succeeds, `none` when it raises and the `except` branch runs. -/
def pyFloat : JVal → Option ℚ
  | .num q => some q
  | .nonnumeric => none

/-- A parsed scenario JSON document, as a key/value association list. -/
abbrev Doc := List (String × JVal)

/-- Embedding of the comparator's `val` helper
(`pages/02_Business_Case_Comparison.py`, lines 38-43):
`v = d.get(k, default); try: return float(v) except: return default`. -/
def val (d : Doc) (k : String) (default : ℚ) : ℚ :=
  let v := (d.lookup k).getD (JVal.num default)
  match pyFloat v with
  | some q => q
  | none => default

/-- Numeric content of the row appended by `add_row` (lines 47-56): the two
looked-up values (with default `0.0`) and their delta `b - a`.  In the source
these three floats are then string-formatted into the table row; `a` and `b`
are always floats there, so the format is always applied. -/
def add_row_vals (dataA dataB : Doc) (key : String) : ℚ × ℚ × ℚ :=
  let a := val dataA key 0
  let b := val dataB key 0
  (a, b, b - a)

/-- Numeric content of one payback cell (lines 79-86): `d.get("payback", None)`
followed by the `isinstance(a_pb, (int, float))` test.  `some q` is a numeric
value (formatted with `{:,.2f}`); `none` covers a missing key (Python `None`,
rendered `str(None) = "None"`) or a non-numeric stored value (rendered via
`str`). -/
def payback_num (d : Doc) : Option ℚ :=
  match d.lookup "payback" with
  | some (JVal.num q) => some q
  | _ => none

/-- Numeric content of the payback row (lines 79-86): the two cells and the
delta, which is computed (`b_pb - a_pb`) only when both cells are numeric and
is the blank string `""` (here `none`) otherwise. -/
def payback_row_vals (dataA dataB : Doc) : Option ℚ × Option ℚ × Option ℚ :=
  let a_pb := payback_num dataA
  let b_pb := payback_num dataB
  (a_pb, b_pb,
    match a_pb, b_pb with
    | some x, some y => some (y - x)
    | _, _ => none)

/-- Order on optional payback results in which `none` ("never pays back") is
greater than every numeric result. -/
def optLE : Option ℚ → Option ℚ → Prop
  | _, none => True
  | none, some _ => False
  | some a, some b => a ≤ b

/-! ### Helper lemmas about the NPV accumulator -/

lemma npvGo_zero_rate (cash_flows : List ℚ) :
    ∀ (t : ℕ) (acc : ℚ), npvGo 0 t acc cash_flows = acc + cash_flows.sum := by
  induction cash_flows with
  | nil => intro t acc; simp [npvGo]
  | cons cf rest ih =>
    intro t acc
    simp only [npvGo, List.sum_cons]
    rw [ih]
    norm_num
    ring

/-- Closed form of the embedded NPV on a two-entry series. -/
lemma compute_npv_pair (r c0 c1 : ℚ) : compute_npv r [c0, c1] = c0 + c1 / (1 + r) := by
  simp [compute_npv, npvGo]

/-- C8.  For every cash-flow list `cf`, `compute_npv(0.0, cf)` equals the
arithmetic sum of the elements of `cf`. -/
theorem compute_npv_zero_rate (cash_flows : List ℚ) :
    compute_npv 0 cash_flows = cash_flows.sum := by
  rw [compute_npv, npvGo_zero_rate]
  ring

/-! ### Payback: first-crossing characterization (C2) -/

lemma paybackGo_never (rest : List ℚ) :
    ∀ (t : ℕ) (c : ℚ), (∀ k, k < rest.length → c + (rest.take (k + 1)).sum < 0) →
    paybackGo t c rest = none := by
  induction rest with
  | nil => intro t c _; rfl
  | cons cf rest ih =>
    intro t c h
    have h0 : c + cf < 0 := by simpa using h 0 (by simp)
    simp only [paybackGo, if_neg (not_le.mpr h0)]
    exact ih (t + 1) (c + cf) (fun k hk => by
      have := h (k + 1) (by simpa using hk)
      simpa [add_assoc] using this)

lemma paybackGo_cross (rest : List ℚ) :
    ∀ (t0 k : ℕ) (c : ℚ), k < rest.length →
    0 ≤ c + (rest.take (k + 1)).sum →
    (∀ j, j < k → c + (rest.take (j + 1)).sum < 0) →
    paybackGo t0 c rest = some
      (if t0 + k = 0 then 0
       else if rest.getD k 0 = 0 then ((t0 + k : ℕ) : ℚ)
       else ((t0 + k : ℕ) : ℚ) - 1 + (0 - (c + (rest.take k).sum)) / rest.getD k 0) := by
  induction rest with
  | nil => intro t0 k c hk; simp at hk
  | cons cf rest ih =>
    intro t0 k c hk hcross hfirst
    match k with
    | 0 =>
      have hc : 0 ≤ c + cf := by simpa using hcross
      simp only [paybackGo, if_pos hc]
      rcases Nat.eq_zero_or_pos t0 with ht0 | ht0
      · subst ht0; simp
      · have ht0' : t0 ≠ 0 := Nat.pos_iff_ne_zero.mp ht0
        simp only [Nat.add_zero, if_neg ht0', List.getD_cons_zero, List.take_zero,
          List.sum_nil, add_zero]
        split_ifs <;> rfl
    | j + 1 =>
      have h0 : c + cf < 0 := by simpa using hfirst 0 (Nat.succ_pos j)
      simp only [paybackGo, if_neg (not_le.mpr h0)]
      have hk' : j < rest.length := by simpa using hk
      have hcross' : 0 ≤ (c + cf) + (rest.take (j + 1)).sum := by
        have : c + ((cf :: rest).take (j + 2)).sum = (c + cf) + (rest.take (j + 1)).sum := by
          simp [add_assoc]
        rw [← this]; exact hcross
      have hfirst' : ∀ i, i < j → (c + cf) + (rest.take (i + 1)).sum < 0 := by
        intro i hi
        have := hfirst (i + 1) (by omega)
        simpa [add_assoc] using this
      rw [ih (t0 + 1) j (c + cf) hk' hcross' hfirst']
      have harith : t0 + 1 + j = t0 + (j + 1) := by omega
      have hne : t0 + (j + 1) ≠ 0 := by omega
      simp only [harith, if_neg hne, List.getD_cons_succ]
      have hsum : (c + cf) + (rest.take j).sum = c + ((cf :: rest).take (j + 1)).sum := by
        simp [add_assoc]
      rw [hsum]

/-- C2.  The payback calculator returns, at the first index `t` where the
running cumulative sum is ≥ 0: `0` if `t = 0`; `t` if `cashflow[t] = 0`;
otherwise `(t-1) + (0 - prev_cumulative)/cashflow[t]`; it returns `none` when
the cumulative sum never reaches ≥ 0; and on `[-1000, 500, 500, 500]` it
returns exactly `2`. -/
theorem payback_first_crossing :
    (∀ (cash_flows : List ℚ) (t : ℕ), t < cash_flows.length →
      0 ≤ (cash_flows.take (t + 1)).sum →
      (∀ s, s < t → (cash_flows.take (s + 1)).sum < 0) →
      compute_payback_period cash_flows = some
        (if t = 0 then 0
         else if cash_flows.getD t 0 = 0 then (t : ℚ)
         else (t : ℚ) - 1 + (0 - (cash_flows.take t).sum) / cash_flows.getD t 0)) ∧
    (∀ cash_flows : List ℚ, (∀ t, t < cash_flows.length → (cash_flows.take (t + 1)).sum < 0) →
      compute_payback_period cash_flows = none) ∧
    compute_payback_period [-1000, 500, 500, 500] = some 2 := by
  refine ⟨?_, ?_, ?_⟩
  · intro cfs t ht hcross hfirst
    rw [compute_payback_period,
      paybackGo_cross cfs 0 t 0 ht (by simpa using hcross) (fun j hj => by simpa using hfirst j hj)]
    simp
  · intro cfs h
    exact paybackGo_never cfs 0 0 (fun k hk => by simpa using h k hk)
  · norm_num [compute_payback_period, paybackGo]

/-- Witness for C2 at the spec's concrete scenario `[-1000, 500, 500, 500]`,
first crossing at index `t = 2`. -/
theorem payback_first_crossing_witness :
    ((2 : ℕ) < ([(-1000 : ℚ), 500, 500, 500]).length ∧
      0 ≤ (([(-1000 : ℚ), 500, 500, 500]).take 3).sum ∧
      (∀ s, s < 2 → (([(-1000 : ℚ), 500, 500, 500]).take (s + 1)).sum < 0)) ∧
    compute_payback_period [(-1000 : ℚ), 500, 500, 500] = some
      (if 2 = 0 then 0
       else if ([(-1000 : ℚ), 500, 500, 500]).getD 2 0 = 0 then ((2 : ℕ) : ℚ)
       else ((2 : ℕ) : ℚ) - 1 + (0 - (([(-1000 : ℚ), 500, 500, 500]).take 2).sum)
         / ([(-1000 : ℚ), 500, 500, 500]).getD 2 0) :=
  ⟨⟨by norm_num, by norm_num, by
      intro s hs
      interval_cases s <;> norm_num⟩,
    payback_first_crossing.1 [(-1000 : ℚ), 500, 500, 500] 2 (by norm_num) (by norm_num)
      (by intro s hs; interval_cases s <;> norm_num)⟩

/-! ### Debt model (C6) -/

/-- C6.  For base annual cost ≥ 0, coverage in `[0,100]` and residual in
`[0,100]` (100 when remediation is disabled), the debt model computes
`impact_pct = max(0, 1 - coverage/100)` and the debt-adjusted annual cost
`base × impact_pct × (residual/100)`; at 100% coverage the adjusted annual
cost is exactly 0 regardless of base cost and residual. -/
theorem debt_model_spec (base coverage : ℚ) (remediation_residual : Option ℚ)
    (hb : 0 ≤ base) (hc0 : 0 ≤ coverage) (hc1 : coverage ≤ 100)
    (hr0 : 0 ≤ residual_pct_effective remediation_residual)
    (hr1 : residual_pct_effective remediation_residual ≤ 100) :
    tech_debt_impact_pct coverage = max 0 (1 - coverage / 100) ∧
    tech_debt_annual_after base coverage remediation_residual =
      base * tech_debt_impact_pct coverage *
        (residual_pct_effective remediation_residual / 100) ∧
    tech_debt_annual_after base 100 remediation_residual = 0 := by
  refine ⟨rfl, rfl, ?_⟩
  rw [tech_debt_annual_after, tech_debt_annual, tech_debt_impact_pct]
  norm_num

/-- Witness for C6 at the spec's example (`base = 20000`, `coverage = 80`,
remediation disabled). -/
theorem debt_model_spec_witness :
    (0 ≤ (20000 : ℚ) ∧ 0 ≤ (80 : ℚ) ∧ (80 : ℚ) ≤ 100 ∧
      0 ≤ residual_pct_effective none ∧ residual_pct_effective none ≤ 100) ∧
    (tech_debt_impact_pct 80 = max 0 (1 - 80 / 100) ∧
      tech_debt_annual_after 20000 80 none =
        20000 * tech_debt_impact_pct 80 * (residual_pct_effective none / 100) ∧
      tech_debt_annual_after 20000 100 none = 0) :=
  ⟨⟨by norm_num, by norm_num, by norm_num,
      by norm_num [residual_pct_effective], by norm_num [residual_pct_effective]⟩,
    debt_model_spec 20000 80 none (by norm_num) (by norm_num) (by norm_num)
      (by norm_num [residual_pct_effective]) (by norm_num [residual_pct_effective])⟩

/-! ### Scenario comparator (C3) -/

/-- Counterexample for C3: on two documents in which `"project_cost"` is
missing, the comparator does not report "not available" — the `val` helper
substitutes its numeric default `0.0` for both scenarios, and the row carries
the substituted numbers `(0, 0, 0)` (which the page then renders as `$0.00`).
No code path of `02_Business_Case_Comparison.py` produces a
"not available" marker. -/
theorem comparator_missing_field_cex :
    ([] : Doc).lookup "project_cost" = none ∧
    add_row_vals ([] : Doc) ([] : Doc) "project_cost" = (0, 0, 0) :=
  ⟨rfl, by norm_num [add_row_vals, val, pyFloat]⟩

/-- C3 (amended).  For the numeric fields read through the `val` helper
(project cost, effective annual run cost, annual total benefit, annual net
benefit, NPV, IRR), a key missing from a document is replaced by the supplied
default (`0.0` at every call site) and the delta is computed from the
substituted values, so a key missing from both documents yields the row
`(0.0, 0.0, 0.0)`; for the payback field, which bypasses `val`, a missing key
yields a non-numeric cell (rendered `str(None) = "None"`) and a blank delta.
In no case does the comparator raise, and it never reports "not available". -/
theorem comparator_missing_defaults :
    (∀ (d : Doc) (k : String) (default : ℚ),
      d.lookup k = none → val d k default = default) ∧
    (∀ (dataA dataB : Doc) (key : String),
      dataA.lookup key = none → dataB.lookup key = none →
      add_row_vals dataA dataB key = (0, 0, 0)) ∧
    (∀ dataA dataB : Doc, dataA.lookup "payback" = none →
      (payback_row_vals dataA dataB).1 = none ∧
      (payback_row_vals dataA dataB).2.2 = none) := by
  refine ⟨?_, ?_, ?_⟩
  · intro d k dflt h
    simp [val, h, pyFloat]
  · intro dA dB k hA hB
    norm_num [add_row_vals, val, hA, hB, pyFloat]
  · intro dA dB hA
    have ha : payback_num dA = none := by rw [payback_num, hA]
    rw [payback_row_vals, ha]
    rcases payback_num dB with _ | q <;> exact ⟨rfl, rfl⟩

/-- Witness for C3's amended statement on two empty documents, with the
`"npv"` key for the `val` path and the payback row for the bypass path. -/
theorem comparator_missing_defaults_witness :
    (([] : Doc).lookup "npv" = none ∧ ([] : Doc).lookup "payback" = none) ∧
    add_row_vals ([] : Doc) ([] : Doc) "npv" = (0, 0, 0) ∧
    ((payback_row_vals ([] : Doc) ([] : Doc)).1 = none ∧
      (payback_row_vals ([] : Doc) ([] : Doc)).2.2 = none) :=
  ⟨⟨rfl, rfl⟩, comparator_missing_defaults.2.1 [] [] "npv" rfl rfl,
    comparator_missing_defaults.2.2 [] [] rfl⟩

/-! ### CSAT distribution (C5, C10) -/

lemma pyRound_nonneg (q : ℚ) (h : 0 ≤ q) : 0 ≤ pyRound q := by
  have hf : 0 ≤ ⌊q⌋ := Int.le_floor.mpr (by exact_mod_cast h)
  rw [pyRound]
  split_ifs <;> omega

lemma pyRound_le_ceil (q : ℚ) : pyRound q ≤ ⌈q⌉ := by
  have h1 : ⌊q⌋ ≤ ⌈q⌉ := Int.floor_le_ceil q
  have hup : ¬ q - (⌊q⌋ : ℚ) < 1/2 → ⌊q⌋ + 1 ≤ ⌈q⌉ := by
    intro hlt
    push_neg at hlt
    have : (⌊q⌋ : ℚ) < q := by linarith
    have : ⌊q⌋ < ⌈q⌉ := Int.lt_ceil.mpr this
    omega
  rw [pyRound]
  split_ifs with h2 h3 h4
  · exact h1
  · exact hup h2
  · exact h1
  · exact hup h2

lemma distribution_core (t : ℤ) (ht : 0 < t) (ph pn : ℚ)
    (hh0 : 0 ≤ ph) (hh1 : ph ≤ 1) (hn0 : 0 ≤ pn) :
    tripleOK t (if t - pyRound ((t : ℚ) * ph) - pyRound ((t : ℚ) * pn) < 0
      then (pyRound ((t : ℚ) * ph), max 0 (t - pyRound ((t : ℚ) * ph)), 0)
      else (pyRound ((t : ℚ) * ph), pyRound ((t : ℚ) * pn),
        t - pyRound ((t : ℚ) * ph) - pyRound ((t : ℚ) * pn))) := by
  have htq : (0 : ℚ) ≤ (t : ℚ) := by exact_mod_cast le_of_lt ht
  have hhge : 0 ≤ pyRound ((t : ℚ) * ph) := pyRound_nonneg _ (mul_nonneg htq hh0)
  have hnge : 0 ≤ pyRound ((t : ℚ) * pn) := pyRound_nonneg _ (mul_nonneg htq hn0)
  have hle : pyRound ((t : ℚ) * ph) ≤ t := by
    have h1 : pyRound ((t : ℚ) * ph) ≤ ⌈(t : ℚ) * ph⌉ := pyRound_le_ceil _
    have h2 : ⌈(t : ℚ) * ph⌉ ≤ t := Int.ceil_le.mpr (by nlinarith)
    omega
  rw [tripleOK]
  split_ifs with hs
  · refine ⟨hhge, le_max_left 0 _, le_refl 0, ?_⟩
    have hmax : max 0 (t - pyRound ((t : ℚ) * ph)) = t - pyRound ((t : ℚ) * ph) :=
      max_eq_right (by omega)
    simp only [hmax]
    omega
  · refine ⟨hhge, hnge, ?_, ?_⟩
    · show 0 ≤ t - pyRound ((t : ℚ) * ph) - pyRound ((t : ℚ) * pn)
      omega
    · show pyRound ((t : ℚ) * ph) + pyRound ((t : ℚ) * pn) +
        (t - pyRound ((t : ℚ) * ph) - pyRound ((t : ℚ) * pn)) = t
      ring

/-- C5.  For every integer `expected_total ≥ 0` and each of the three preset
sentiment labels, the triple returned by `apply_distribution` has all three
components non-negative and sums exactly to `expected_total`. -/
theorem apply_distribution_conserves (expected_total : ℤ) (label : String)
    (h0 : 0 ≤ expected_total) (hl : (SENTIMENT_PRESETS label).isSome = true) :
    tripleOK expected_total (apply_distribution expected_total label) := by
  rcases hpre : SENTIMENT_PRESETS label with _ | d
  · rw [hpre] at hl; simp at hl
  · by_cases ht : expected_total ≤ 0
    · have h00 : expected_total = 0 := le_antisymm ht h0
      subst h00
      simp [apply_distribution, hpre, tripleOK]
    · push_neg at ht
      have hd : 0 ≤ d.happy ∧ d.happy ≤ 1 ∧ 0 ≤ d.neutral := by
        rw [SENTIMENT_PRESETS] at hpre
        split_ifs at hpre <;> simp_all <;> rw [← hpre] <;> norm_num
      have hrw : apply_distribution expected_total label =
          (if expected_total - pyRound ((expected_total : ℚ) * d.happy)
              - pyRound ((expected_total : ℚ) * d.neutral) < 0
            then (pyRound ((expected_total : ℚ) * d.happy),
              max 0 (expected_total - pyRound ((expected_total : ℚ) * d.happy)), 0)
            else (pyRound ((expected_total : ℚ) * d.happy),
              pyRound ((expected_total : ℚ) * d.neutral),
              expected_total - pyRound ((expected_total : ℚ) * d.happy)
                - pyRound ((expected_total : ℚ) * d.neutral))) := by
        rw [apply_distribution, hpre]
        simp only [if_neg (not_le.mpr ht)]
      rw [hrw]
      exact distribution_core expected_total ht d.happy d.neutral hd.1 hd.2.1 hd.2.2

/-- Witness for C5 at the spec's concrete scenario: `expected_total = 100`
with the "mostly happy" preset. -/
theorem apply_distribution_conserves_witness :
    (0 ≤ (100 : ℤ) ∧ (SENTIMENT_PRESETS "Customers mostly happy").isSome = true) ∧
    tripleOK 100 (apply_distribution 100 "Customers mostly happy") :=
  ⟨⟨by norm_num, rfl⟩,
    apply_distribution_conserves 100 "Customers mostly happy" (by norm_num) rfl⟩

/-- C10.  For every integer `expected_total` and string label, if the label is
not one of the three preset keys or `expected_total ≤ 0`, `apply_distribution`
returns `(0, 0, 0)` without raising. -/
theorem apply_distribution_degenerate (expected_total : ℤ) (label : String)
    (h : SENTIMENT_PRESETS label = none ∨ expected_total ≤ 0) :
    apply_distribution expected_total label = (0, 0, 0) := by
  rcases h with h | h
  · rw [apply_distribution, h]
  · rcases hpre : SENTIMENT_PRESETS label with _ | d
    · rw [apply_distribution, hpre]
    · rw [apply_distribution, hpre]
      simp only [if_pos h]

/-- Witness for C10: a misspelled label (`"Customers mostly hapy"`) with a
positive total silently yields zero counts. -/
theorem apply_distribution_degenerate_witness :
    (SENTIMENT_PRESETS "Customers mostly hapy" = none ∨ (7 : ℤ) ≤ 0) ∧
    apply_distribution 7 "Customers mostly hapy" = (0, 0, 0) :=
  ⟨Or.inl rfl, apply_distribution_degenerate 7 "Customers mostly hapy" (Or.inl rfl)⟩

/-! ### Payback monotonicity (C7) -/

lemma paybackGo_some_gt (xs : List ℚ) :
    ∀ (t : ℕ) (c : ℚ), c < 0 → ∀ v, paybackGo t c xs = some v → (t : ℚ) - 1 < v := by
  induction xs with
  | nil => intro t c _ v h; simp [paybackGo] at h
  | cons cf rest ih =>
    intro t c hc v h
    by_cases hcr : 0 ≤ c + cf
    · have hcf : 0 < cf := by linarith
      rw [paybackGo] at h
      simp only [if_pos hcr] at h
      rcases Nat.eq_zero_or_pos t with ht | ht
      · subst ht
        simp at h
        subst h
        norm_num
      · have ht' : t ≠ 0 := Nat.pos_iff_ne_zero.mp ht
        simp only [if_neg ht', if_neg (ne_of_gt hcf), Option.some.injEq] at h
        have hfrac : 0 < (0 - c) / cf := div_pos (by linarith) hcf
        linarith
    · rw [paybackGo] at h
      simp only [if_neg hcr] at h
      have := ih (t + 1) (c + cf) (by linarith) v h
      have hcast : ((t + 1 : ℕ) : ℚ) = (t : ℚ) + 1 := by push_cast; ring
      rw [hcast] at this
      linarith

lemma paybackGo_antitone :
    ∀ (xs ys : List ℚ), List.Forall₂ (· ≤ ·) xs ys →
    ∀ (t : ℕ) (cx cy : ℚ), cx ≤ cy → cx < 0 → cy < 0 → 1 ≤ t →
    optLE (paybackGo t cy ys) (paybackGo t cx xs) := by
  intro xs ys hall
  induction hall with
  | nil => intro t cx cy _ _ _ _; exact trivial
  | @cons x y xs ys hxy hall ih =>
    intro t cx cy hcxy hcx hcy ht
    have ht' : t ≠ 0 := by omega
    by_cases hy : 0 ≤ cy + y
    · have hy0 : 0 < y := by linarith
      have hry : paybackGo t cy (y :: ys) = some ((t : ℚ) - 1 + (0 - cy) / y) := by
        rw [paybackGo]
        simp only [if_pos hy, if_neg ht', if_neg (ne_of_gt hy0)]
      have hfrac1 : (0 - cy) / y ≤ 1 := by
        rw [div_le_one hy0]
        linarith
      by_cases hx : 0 ≤ cx + x
      · have hx0 : 0 < x := by linarith
        have hrx : paybackGo t cx (x :: xs) = some ((t : ℚ) - 1 + (0 - cx) / x) := by
          rw [paybackGo]
          simp only [if_pos hx, if_neg ht', if_neg (ne_of_gt hx0)]
        rw [hry, hrx]
        show (t : ℚ) - 1 + (0 - cy) / y ≤ (t : ℚ) - 1 + (0 - cx) / x
        have hdiv : (0 - cy) / y ≤ (0 - cx) / x :=
          div_le_div₀ (by linarith) (by linarith) hx0 hxy
        linarith
      · rw [hry, paybackGo]
        simp only [if_neg hx]
        rcases hgo : paybackGo (t + 1) (cx + x) xs with _ | v
        · exact trivial
        · show (t : ℚ) - 1 + (0 - cy) / y ≤ v
          have hv := paybackGo_some_gt xs (t + 1) (cx + x) (by linarith) v hgo
          have hcast : ((t + 1 : ℕ) : ℚ) = (t : ℚ) + 1 := by push_cast; ring
          rw [hcast] at hv
          linarith
    · have hx : ¬ 0 ≤ cx + x := by
        push_neg at hy ⊢
        calc cx + x ≤ cy + y := add_le_add hcxy hxy
          _ < 0 := hy
      rw [paybackGo, paybackGo]
      simp only [if_neg hx, if_neg hy]
      push_neg at hy hx
      exact ih (t + 1) (cx + x) (cy + y) (add_le_add hcxy hxy) hx hy (by omega)

lemma forall₂_replicate_le (b1 b2 : ℚ) (h : b1 ≤ b2) :
    ∀ n : ℕ, List.Forall₂ (· ≤ ·) (List.replicate n b1) (List.replicate n b2) := by
  intro n
  induction n with
  | zero => simp [List.replicate]
  | succ n ih => simpa [List.replicate] using List.Forall₂.cons h ih

/-- C7.  For project cost `P ≥ 0`, horizon `n ≥ 1` and annual net benefits
`b1 ≤ b2`, the payback of `[-P, b2, ..., b2]` is no greater than the payback of
`[-P, b1, ..., b1]`, with a `none` result treated as larger than every numeric
result. -/
theorem payback_antitone_constant (P b1 b2 : ℚ) (n : ℕ)
    (hP : 0 ≤ P) (hn : 1 ≤ n) (hb : b1 ≤ b2) :
    optLE (compute_payback_period ((-P) :: List.replicate n b2))
      (compute_payback_period ((-P) :: List.replicate n b1)) := by
  rw [compute_payback_period, compute_payback_period, paybackGo, paybackGo]
  by_cases h0 : 0 ≤ (0 : ℚ) + -P
  · simp only [if_pos h0, if_pos rfl]
    show (0 : ℚ) ≤ 0
    exact le_refl 0
  · simp only [if_neg h0]
    push_neg at h0
    exact paybackGo_antitone (List.replicate n b1) (List.replicate n b2)
      (forall₂_replicate_le b1 b2 hb n) 1 (0 + -P) (0 + -P) (le_refl _) h0 h0 (le_refl 1)

/-- Witness for C7: `P = 1000`, three years, benefits `400 ≤ 500`. -/
theorem payback_antitone_constant_witness :
    (0 ≤ (1000 : ℚ) ∧ 1 ≤ 3 ∧ (400 : ℚ) ≤ 500) ∧
    optLE (compute_payback_period ((-(1000 : ℚ)) :: List.replicate 3 500))
      (compute_payback_period ((-(1000 : ℚ)) :: List.replicate 3 400)) :=
  ⟨⟨by norm_num, by norm_num, by norm_num⟩,
    payback_antitone_constant 1000 400 500 3 (by norm_num) (by norm_num) (by norm_num)⟩

/-! ### IRR bisection: structural lemmas -/

lemma irrGo_zero (cf : List ℚ) (lo hi nlo nhi : ℚ) :
    irrGo cf 0 lo hi nlo nhi = (lo + hi) / 2 := rfl

lemma irrGo_succ (cf : List ℚ) (fuel : ℕ) (lo hi nlo nhi : ℚ) :
    irrGo cf (fuel + 1) lo hi nlo nhi =
      (if |compute_npv ((lo + hi) / 2) cf| < 1 / 1000000 then (lo + hi) / 2
       else if nlo * compute_npv ((lo + hi) / 2) cf < 0 then
         irrGo cf fuel lo ((lo + hi) / 2) nlo (compute_npv ((lo + hi) / 2) cf)
       else irrGo cf fuel ((lo + hi) / 2) hi (compute_npv ((lo + hi) / 2) cf) nhi) := rfl

lemma irrGo_mem (cf : List ℚ) :
    ∀ (fuel : ℕ) (lo hi nlo nhi : ℚ), lo ≤ hi →
    lo ≤ irrGo cf fuel lo hi nlo nhi ∧ irrGo cf fuel lo hi nlo nhi ≤ hi := by
  intro fuel
  induction fuel with
  | zero =>
    intro lo hi nlo nhi h
    rw [irrGo_zero]
    constructor <;> linarith
  | succ fuel ih =>
    intro lo hi nlo nhi h
    have hm1 : lo ≤ (lo + hi) / 2 := by linarith
    have hm2 : (lo + hi) / 2 ≤ hi := by linarith
    rw [irrGo_succ]
    split_ifs
    · exact ⟨hm1, hm2⟩
    · have := ih lo ((lo + hi) / 2) nlo (compute_npv ((lo + hi) / 2) cf) hm1
      exact ⟨this.1, le_trans this.2 hm2⟩
    · have := ih ((lo + hi) / 2) hi (compute_npv ((lo + hi) / 2) cf) nhi hm2
      exact ⟨le_trans hm1 this.1, this.2⟩

lemma irrGoBracket_zero (cf : List ℚ) (lo hi nlo nhi : ℚ) :
    irrGoBracket cf 0 lo hi nlo nhi = some (lo, hi) := rfl

lemma irrGoBracket_succ (cf : List ℚ) (fuel : ℕ) (lo hi nlo nhi : ℚ) :
    irrGoBracket cf (fuel + 1) lo hi nlo nhi =
      (if |compute_npv ((lo + hi) / 2) cf| < 1 / 1000000 then none
       else if nlo * compute_npv ((lo + hi) / 2) cf < 0 then
         irrGoBracket cf fuel lo ((lo + hi) / 2) nlo (compute_npv ((lo + hi) / 2) cf)
       else irrGoBracket cf fuel ((lo + hi) / 2) hi (compute_npv ((lo + hi) / 2) cf) nhi) := rfl

/-- The loop result is either a midpoint that met the tolerance (the bracket
trace records no final bracket), or exactly the midpoint of the final bracket
recorded by the trace, whose width is the initial width divided by
`2 ^ fuel`. -/
lemma irrGo_bracket_spec (cf : List ℚ) :
    ∀ (fuel : ℕ) (lo hi nlo nhi : ℚ),
    (irrGoBracket cf fuel lo hi nlo nhi = none ∧
      |compute_npv (irrGo cf fuel lo hi nlo nhi) cf| < 1 / 1000000) ∨
    (∃ l h, irrGoBracket cf fuel lo hi nlo nhi = some (l, h) ∧
      irrGo cf fuel lo hi nlo nhi = (l + h) / 2 ∧ h - l = (hi - lo) / 2 ^ fuel) := by
  intro fuel
  induction fuel with
  | zero =>
    intro lo hi nlo nhi
    exact Or.inr ⟨lo, hi, irrGoBracket_zero cf lo hi nlo nhi,
      irrGo_zero cf lo hi nlo nhi, by norm_num⟩
  | succ fuel ih =>
    intro lo hi nlo nhi
    rw [irrGo_succ, irrGoBracket_succ]
    split_ifs with h1 h2
    · exact Or.inl ⟨rfl, h1⟩
    · rcases ih lo ((lo + hi) / 2) nlo (compute_npv ((lo + hi) / 2) cf) with
        ⟨hb, hw⟩ | ⟨l, h, hb, he, hwid⟩
      · exact Or.inl ⟨hb, hw⟩
      · refine Or.inr ⟨l, h, hb, he, ?_⟩
        rw [hwid]
        have hp : (2 : ℚ) ^ fuel ≠ 0 := by positivity
        field_simp
        ring
    · rcases ih ((lo + hi) / 2) hi (compute_npv ((lo + hi) / 2) cf) nhi with
        ⟨hb, hw⟩ | ⟨l, h, hb, he, hwid⟩
      · exact Or.inl ⟨hb, hw⟩
      · refine Or.inr ⟨l, h, hb, he, ?_⟩
        rw [hwid]
        have hp : (2 : ℚ) ^ fuel ≠ 0 := by positivity
        field_simp
        ring

/-- The final bracket recorded by the trace is contained in the initial
bracket. -/
lemma irrGoBracket_mem (cf : List ℚ) :
    ∀ (fuel : ℕ) (lo hi nlo nhi l h : ℚ), lo ≤ hi →
    irrGoBracket cf fuel lo hi nlo nhi = some (l, h) → lo ≤ l ∧ h ≤ hi := by
  intro fuel
  induction fuel with
  | zero =>
    intro lo hi nlo nhi l h _ heq
    rw [irrGoBracket_zero] at heq
    simp only [Option.some.injEq, Prod.mk.injEq] at heq
    rw [← heq.1, ← heq.2]
    exact ⟨le_refl lo, le_refl hi⟩
  | succ fuel ih =>
    intro lo hi nlo nhi l h hle heq
    have hm1 : lo ≤ (lo + hi) / 2 := by linarith
    have hm2 : (lo + hi) / 2 ≤ hi := by linarith
    rw [irrGoBracket_succ] at heq
    split_ifs at heq
    · have := ih lo ((lo + hi) / 2) nlo (compute_npv ((lo + hi) / 2) cf) l h hm1 heq
      exact ⟨this.1, le_trans this.2 hm2⟩
    · have := ih ((lo + hi) / 2) hi (compute_npv ((lo + hi) / 2) cf) nhi l h hm2 heq
      exact ⟨le_trans hm1 this.1, this.2⟩

/-- C9.  Whenever `compute_irr` with the default bracket returns a rate, that
rate lies in `[-0.9, 10]`. -/
theorem compute_irr_in_bracket (cash_flows : List ℚ) (r : ℚ)
    (h : compute_irr cash_flows (-9/10) 10 = some r) :
    -9/10 ≤ r ∧ r ≤ 10 := by
  rw [compute_irr] at h
  by_cases hp : compute_npv (-9/10) cash_flows * compute_npv 10 cash_flows > 0
  · simp only [if_pos hp] at h
    exact absurd h (by simp)
  · simp only [if_neg hp, Option.some.injEq] at h
    rw [← h]
    exact irrGo_mem cash_flows 100 (-9/10) 10 _ _ (by norm_num)

/-- Witness for C9: on `[-1, 111/20]` the solver exits at the first midpoint
`91/20` (its NPV is exactly 0), which lies inside the default bracket. -/
theorem compute_irr_in_bracket_witness :
    compute_irr [(-1 : ℚ), 111/20] (-9/10) 10 = some (91/20) ∧
    (-9/10 ≤ (91/20 : ℚ) ∧ (91/20 : ℚ) ≤ 10) := by
  have heval : compute_irr [(-1 : ℚ), 111/20] (-9/10) 10 = some (91/20) := by
    have hlo : compute_npv (-9/10) [(-1 : ℚ), 111/20] = 109/2 := by
      rw [compute_npv_pair]; norm_num
    have hhi : compute_npv 10 [(-1 : ℚ), 111/20] = -109/220 := by
      rw [compute_npv_pair]; norm_num
    have hmid : compute_npv ((-9/10 + 10) / 2) [(-1 : ℚ), 111/20] = 0 := by
      rw [compute_npv_pair]; norm_num
    rw [compute_irr]
    simp only [hlo, hhi]
    rw [if_neg (by norm_num), show (100 : ℕ) = 99 + 1 from rfl, irrGo_succ, hmid,
      if_pos (by norm_num)]
    norm_num
  exact ⟨heval, compute_irr_in_bracket [(-1 : ℚ), 111/20] (91/20) heval⟩

/-! ### The pathological bracket-boundary run (used for C1 and C4)

On the series `[-1, 1/10]` the NPV at the default lower bound `-0.9` is
exactly 0, so the precondition `NPV(low) × NPV(high) ≤ 0` holds, yet the only
root of the NPV lies at the bracket boundary itself.  After the first
bisection step the code's test `npv_low * npv_mid < 0` fails (the product is
0), the bracket becomes `[4.55, 10]` — which contains no sign change — and
every later step keeps moving the lower bound up, so the loop exhausts and
returns a rate near 10 whose NPV is about `-0.99`. -/

lemma npv_pathological (r : ℚ) :
    compute_npv r [(-1 : ℚ), 1/10] = -1 + (1/10) / (1 + r) := compute_npv_pair r (-1) (1/10)

lemma irrGo_runaway :
    ∀ (fuel : ℕ) (lo : ℚ), 91/20 ≤ lo → lo < 10 → ∀ (nlo nhi : ℚ), nlo ≤ 0 →
    irrGo [(-1 : ℚ), 1/10] fuel lo 10 nlo nhi = 10 - (10 - lo) / 2 ^ (fuel + 1) := by
  intro fuel
  induction fuel with
  | zero =>
    intro lo _ _ nlo nhi _
    rw [irrGo_zero]
    ring
  | succ fuel ih =>
    intro lo hlo1 hlo2 nlo nhi hnlo
    have hm1 : 91/20 ≤ (lo + 10) / 2 := by linarith
    have hm2 : (lo + 10) / 2 < 10 := by linarith
    have hden : (111/20 : ℚ) ≤ 1 + (lo + 10) / 2 := by linarith
    have hdenpos : (0 : ℚ) < 1 + (lo + 10) / 2 := by linarith
    have hsmall : (1/10 : ℚ) / (1 + (lo + 10) / 2) ≤ 2/111 := by
      rw [div_le_div_iff₀ hdenpos (by norm_num)]
      linarith
    have hnm : compute_npv ((lo + 10) / 2) [(-1 : ℚ), 1/10] ≤ -109/111 := by
      rw [npv_pathological]
      linarith
    rw [irrGo_succ]
    rw [if_neg (by
      rw [abs_lt]
      push_neg
      intro hcontra
      linarith)]
    rw [if_neg (by
      push_neg
      have h' : compute_npv ((lo + 10) / 2) [(-1 : ℚ), 1/10] ≤ 0 := by linarith
      nlinarith [mul_nonneg (neg_nonneg.mpr hnlo) (neg_nonneg.mpr h')])]
    rw [ih ((lo + 10) / 2) hm1 hm2 _ nhi (by linarith)]
    have hp : (2 : ℚ) ^ (fuel + 1) ≠ 0 := by positivity
    field_simp
    ring

lemma compute_irr_pathological :
    compute_irr [(-1 : ℚ), 1/10] (-9/10) 10 = some (10 - (109/20) / 2 ^ 100) := by
  have hlo : compute_npv (-9/10) [(-1 : ℚ), 1/10] = 0 := by
    rw [npv_pathological]; norm_num
  have hhi : compute_npv 10 [(-1 : ℚ), 1/10] = -109/110 := by
    rw [npv_pathological]; norm_num
  have hmid : compute_npv ((-9/10 + 10) / 2) [(-1 : ℚ), 1/10] = -109/111 := by
    rw [npv_pathological]; norm_num
  rw [compute_irr]
  simp only [hlo, hhi]
  rw [if_neg (by norm_num), show (100 : ℕ) = 99 + 1 from rfl, irrGo_succ, hmid,
    if_neg (by rw [abs_lt]; push_neg; intro hcontra; linarith), if_neg (by norm_num)]
  have h91 : ((-9/10 : ℚ) + 10) / 2 = 91/20 := by norm_num
  rw [h91, irrGo_runaway 99 (91/20) (le_refl _) (by norm_num) (-109/111) (-109/110)
    (by norm_num)]
  norm_num

/-! ### C1: the solver's null test and the bisection invariant -/

/-- Counterexample for C1 at `cf = [-1, 1/10]` with the default bracket.  The
precondition holds (`NPV(-0.9) × NPV(10) = 0 × (-109/110)`, not `> 0`, first
conjunct), so the claim asserts that every bisection step keeps a sign change
in the bracket.  But at the very first step the tolerance exit does not fire
(second conjunct), the code's test `npv_low * npv_mid < 0` fails because
`npv_low = 0` (third conjunct), so the loop replaces the lower bound by the
midpoint `4.55` — and the NPV product over the resulting bracket `[4.55, 10]`
is strictly positive (fourth conjunct): the sign change is lost. -/
theorem irr_step_sign_change_cex :
    ¬ compute_npv (-9/10) [(-1 : ℚ), 1/10] * compute_npv 10 [(-1 : ℚ), 1/10] > 0 ∧
    ¬ |compute_npv ((-9/10 + 10) / 2) [(-1 : ℚ), 1/10]| < 1/1000000 ∧
    ¬ compute_npv (-9/10) [(-1 : ℚ), 1/10] *
        compute_npv ((-9/10 + 10) / 2) [(-1 : ℚ), 1/10] < 0 ∧
    compute_npv ((-9/10 + 10) / 2) [(-1 : ℚ), 1/10] *
      compute_npv 10 [(-1 : ℚ), 1/10] > 0 := by
  have hlo : compute_npv (-9/10) [(-1 : ℚ), 1/10] = 0 := by
    rw [npv_pathological]; norm_num
  have hhi : compute_npv 10 [(-1 : ℚ), 1/10] = -109/110 := by
    rw [npv_pathological]; norm_num
  have hmid : compute_npv ((-9/10 + 10) / 2) [(-1 : ℚ), 1/10] = -109/111 := by
    rw [npv_pathological]; norm_num
  rw [hlo, hhi, hmid]
  refine ⟨by norm_num, ?_, by norm_num, by norm_num⟩
  rw [abs_lt]
  push_neg
  intro hcontra
  linarith

/-- C1 (amended).  The solver returns `none` iff `NPV(low) × NPV(high) > 0`;
when the product is ≤ 0 it returns a rate that either met the `1e-6` tolerance
or is exactly the midpoint of the bracket the loop holds after the 100th
iteration (as recorded by the bracket trace `irrGoBracket` of the same loop),
whose width is `(high - low)/2^100`; and a bisection step keeps a strict sign
change (`NPV` product `< 0`) in the bracket whenever the bracket it starts
from has one — the original claim's unconditional sign-change invariant fails
only when an endpoint NPV is exactly 0. -/
theorem compute_irr_bisection_amended (cash_flows : List ℚ) (low high : ℚ) :
    (compute_irr cash_flows low high = none ↔
      compute_npv low cash_flows * compute_npv high cash_flows > 0) ∧
    (compute_npv low cash_flows * compute_npv high cash_flows ≤ 0 →
      ∃ r, compute_irr cash_flows low high = some r ∧
        (|compute_npv r cash_flows| < 1/1000000 ∨
          ∃ l h, irrGoBracket cash_flows 100 low high (compute_npv low cash_flows)
              (compute_npv high cash_flows) = some (l, h) ∧
            r = (l + h) / 2 ∧ h - l = (high - low) / 2 ^ 100)) ∧
    (∀ l h, compute_npv l cash_flows * compute_npv h cash_flows < 0 →
      ¬ |compute_npv ((l + h) / 2) cash_flows| < 1/1000000 →
      ¬ compute_npv l cash_flows * compute_npv ((l + h) / 2) cash_flows < 0 →
      compute_npv ((l + h) / 2) cash_flows * compute_npv h cash_flows < 0) := by
  refine ⟨?_, ?_, ?_⟩
  · rw [compute_irr]
    by_cases hp : compute_npv low cash_flows * compute_npv high cash_flows > 0
    · simp [hp]
    · simp [hp]
  · intro hprod
    rw [compute_irr, if_neg (not_lt.mpr hprod)]
    refine ⟨_, rfl, ?_⟩
    rcases irrGo_bracket_spec cash_flows 100 low high (compute_npv low cash_flows)
        (compute_npv high cash_flows) with ⟨_, hw⟩ | ⟨l, h, hbr, heq, hwid⟩
    · exact Or.inl hw
    · exact Or.inr ⟨l, h, hbr, heq, hwid⟩
  · intro l h hlh hmid hno
    push_neg at hno
    have hnm : compute_npv ((l + h) / 2) cash_flows ≠ 0 := by
      intro h0
      apply hmid
      rw [h0]
      norm_num
    have hnl : compute_npv l cash_flows ≠ 0 := by
      intro h0
      rw [h0, zero_mul] at hlh
      exact lt_irrefl 0 hlh
    have hpos : 0 < compute_npv l cash_flows * compute_npv ((l + h) / 2) cash_flows :=
      lt_of_le_of_ne hno (Ne.symm (mul_ne_zero hnl hnm))
    nlinarith [mul_neg_of_pos_of_neg hpos hlh, sq_nonneg (compute_npv l cash_flows)]

/-- Witness for C1's amended statement at `cf = [-1000, 1100]` with the
default bracket endpoints, discharging the `NPV product ≤ 0` hypothesis of the
second conjunct concretely (`NPV(-0.9) = 10000`, `NPV(10) = -900`). -/
theorem compute_irr_bisection_amended_witness :
    compute_npv (-9/10) [(-1000 : ℚ), 1100] * compute_npv 10 [(-1000 : ℚ), 1100] ≤ 0 ∧
    ∃ r, compute_irr [(-1000 : ℚ), 1100] (-9/10) 10 = some r ∧
      (|compute_npv r [(-1000 : ℚ), 1100]| < 1/1000000 ∨
        ∃ l h, irrGoBracket [(-1000 : ℚ), 1100] 100 (-9/10) 10
            (compute_npv (-9/10) [(-1000 : ℚ), 1100])
            (compute_npv 10 [(-1000 : ℚ), 1100]) = some (l, h) ∧
          r = (l + h) / 2 ∧ h - l = (10 - (-9/10)) / 2 ^ 100) :=
  have hprod : compute_npv (-9/10) [(-1000 : ℚ), 1100] *
      compute_npv 10 [(-1000 : ℚ), 1100] ≤ 0 := by
    rw [compute_npv_pair, compute_npv_pair]
    norm_num
  ⟨hprod, (compute_irr_bisection_amended [(-1000 : ℚ), 1100] (-9/10) 10).2.1 hprod⟩

/-! ### C4: the IRR/NPV round-trip tolerance -/

/-- Counterexample for C4 at `cf = [-1, 1/10]`.  The solver returns the
non-null rate `10 - (109/20)/2^100` (the NPV at the default lower bound is
exactly 0, so the bisection loses its sign change and runs away to the upper
bound), yet the NPV at that rate is about `-0.99`, nowhere near the claimed
`1e-4` tolerance. -/
theorem irr_roundtrip_cex :
    compute_irr [(-1 : ℚ), 1/10] (-9/10) 10 = some (10 - (109/20) / 2 ^ 100) ∧
    ¬ |compute_npv (10 - (109/20) / 2 ^ 100) [(-1 : ℚ), 1/10]| < 1/10000 := by
  refine ⟨compute_irr_pathological, ?_⟩
  have hpow : (109 : ℚ)/20 ≤ 2 ^ 100 := by
    calc (109 : ℚ)/20 ≤ 2 ^ 3 := by norm_num
    _ ≤ 2 ^ 100 := pow_le_pow_right₀ (by norm_num) (by norm_num)
  have hfuel : ((109 : ℚ)/20) / 2 ^ 100 ≤ 1 := by
    rw [div_le_one (by positivity)]
    exact hpow
  rw [npv_pathological]
  have hdenpos : (0 : ℚ) < 1 + (10 - (109/20) / 2 ^ 100) := by linarith
  have hsmall : (1/10 : ℚ) / (1 + (10 - (109/20) / 2 ^ 100)) ≤ 1/100 := by
    rw [div_le_div_iff₀ hdenpos (by norm_num)]
    linarith
  rw [abs_lt]
  push_neg
  intro hcontra
  linarith

/-- C4 (amended).  A rate returned by the solver with the default bracket
either met the `1e-6` early tolerance (hence `|NPV| < 1e-4` there), or is
exactly the midpoint of the final bracket the loop holds when the 100
iterations exhaust (as recorded by the bracket trace `irrGoBracket` of the
same loop) — a sub-bracket of `[-0.9, 10]` of width `(10 - (-0.9))/2^100` —
with no bound on its NPV. -/
theorem compute_irr_roundtrip_amended (cash_flows : List ℚ) (r : ℚ)
    (h : compute_irr cash_flows (-9/10) 10 = some r) :
    |compute_npv r cash_flows| < 1/1000000 ∨
    ∃ l hb, irrGoBracket cash_flows 100 (-9/10) 10 (compute_npv (-9/10) cash_flows)
        (compute_npv 10 cash_flows) = some (l, hb) ∧
      r = (l + hb) / 2 ∧ hb - l = (10 - (-9/10)) / 2 ^ 100 ∧
      -9/10 ≤ l ∧ hb ≤ 10 := by
  rw [compute_irr] at h
  by_cases hp : compute_npv (-9/10) cash_flows * compute_npv 10 cash_flows > 0
  · simp [hp] at h
  · simp only [if_neg hp, Option.some.injEq] at h
    rcases irrGo_bracket_spec cash_flows 100 (-9/10) 10 (compute_npv (-9/10) cash_flows)
        (compute_npv 10 cash_flows) with ⟨_, hw⟩ | ⟨l, hb, hbr, heq, hwid⟩
    · rw [← h]
      exact Or.inl hw
    · have hmem := irrGoBracket_mem cash_flows 100 (-9/10) 10
        (compute_npv (-9/10) cash_flows) (compute_npv 10 cash_flows) l hb
        (by norm_num) hbr
      exact Or.inr ⟨l, hb, hbr, by rw [← h, heq], hwid, hmem.1, hmem.2⟩

/-- Witness for C4's amended statement: on `[-2, 111/10]` the solver exits at
the first midpoint `91/20`, whose NPV is exactly 0. -/
theorem compute_irr_roundtrip_amended_witness :
    compute_irr [(-2 : ℚ), 111/10] (-9/10) 10 = some (91/20) ∧
    (|compute_npv (91/20) [(-2 : ℚ), 111/10]| < 1/1000000 ∨
      ∃ l hb, irrGoBracket [(-2 : ℚ), 111/10] 100 (-9/10) 10
          (compute_npv (-9/10) [(-2 : ℚ), 111/10])
          (compute_npv 10 [(-2 : ℚ), 111/10]) = some (l, hb) ∧
        (91/20 : ℚ) = (l + hb) / 2 ∧ hb - l = (10 - (-9/10)) / 2 ^ 100 ∧
        -9/10 ≤ l ∧ hb ≤ 10) := by
  have heval : compute_irr [(-2 : ℚ), 111/10] (-9/10) 10 = some (91/20) := by
    have hlo : compute_npv (-9/10) [(-2 : ℚ), 111/10] = 109 := by
      rw [compute_npv_pair]; norm_num
    have hhi : compute_npv 10 [(-2 : ℚ), 111/10] = -109/110 := by
      rw [compute_npv_pair]; norm_num
    have hmid : compute_npv ((-9/10 + 10) / 2) [(-2 : ℚ), 111/10] = 0 := by
      rw [compute_npv_pair]; norm_num
    rw [compute_irr]
    simp only [hlo, hhi]
    rw [if_neg (by norm_num), show (100 : ℕ) = 99 + 1 from rfl, irrGo_succ, hmid,
      if_pos (by norm_num)]
    norm_num
  exact ⟨heval, compute_irr_roundtrip_amended [(-2 : ℚ), 111/10] (91/20) heval⟩

end BizCase
